import Mathlib

/-!
# Verification of the ProtoObject deep-reconciliation and JSON-normalization engine

This file gives a shallow embedding of `src/classes/proto-object.ts` and proves the
spec's claims about it.

Modelling conventions:
* JavaScript runtime values are the inductive `JSValue`.  Machine floats are modelled
  as integers (`Int`): the engine only ever discriminates on `typeof` and on
  truthiness, and `NaN`/fractional values are outside the model.
* An object's properties are an association list `List (String × Desc × JSValue)` in
  insertion order, mirroring JavaScript's string-key iteration order.  `Desc` models
  the property descriptor; getters/setters are collapsed into the single `accessor`
  flag (the engine only ever tests `!descriptor.get && !descriptor.set`), and reading
  `descriptor.value` of an accessor property yields `undefined`.
* Reference identity of objects is modelled by an `id : Nat` tag carried by object
  values; the in-place mutation performed by `recursiveAssign` becomes "the returned
  value carries the target's id".  Fresh allocations (the `data.copy()` branch) draw
  ids from an explicit counter threaded through the functions.  Temporary bags that
  never escape (the `json = {}` literals inside `toJSON`/`fromJSON`) are given id `0`.
* Arrays are modelled as plain element lists.  The engine returns source arrays
  wholesale and never reads a target array's named properties on any path exercised
  by the claims, so array-targets with extra named properties are outside the model.
-/

/-- A JavaScript property descriptor, as far as the engine inspects it:
`enumerable`, `writable`, and whether the slot is an accessor (has `get`/`set`). -/
structure Desc where
  enumerable : Bool
  writable : Bool
  accessor : Bool
deriving Repr, DecidableEq

/-- The descriptor created by a plain assignment `o[k] = v` on a missing key:
enumerable, writable data slot. -/
def Desc.data : Desc := ⟨true, true, false⟩

/-- The constructor tag of an object: the generic bag constructor `Object`, a
`ProtoObject` subclass (with a class identity `cls` distinct from its
`constructor.name` string), or some other named constructor (`Date`, `Buffer`, ...). -/
inductive CtorTag where
  | plainTag : CtorTag
  | protoTag (cls : Nat) (name : String) : CtorTag
  | exoticTag (name : String) : CtorTag
deriving Repr, DecidableEq

/-- A JavaScript runtime value, as discriminated by the engine. -/
inductive JSValue where
  | undefV : JSValue
  | null : JSValue
  | boolV (b : Bool) : JSValue
  | numV (n : Int) : JSValue
  | strV (s : String) : JSValue
  | bigV (n : Int) : JSValue
  | symV (n : Nat) : JSValue
  | funV (n : Nat) : JSValue
  | arrV (elems : List JSValue) : JSValue
  | objV (id : Nat) (tag : CtorTag) (props : List (String × Desc × JSValue)) : JSValue
deriving Repr

/-- `typeof v === "undefined"` / `v === undefined`. -/
def isUndefined : JSValue → Bool
  | .undefV => true
  | _ => false

/-- `v === null`. -/
def isNull : JSValue → Bool
  | .null => true
  | _ => false

/-- Shorthand for one own property: key, descriptor, value. -/
abbrev Prp := String × Desc × JSValue

/-- The result kinds of JavaScript's `typeof` operator. -/
inductive TKind where
  | undefinedK | objectK | booleanK | numberK | stringK | bigintK | symbolK | functionK
deriving Repr, DecidableEq

/-- `typeof v`.  Note `typeof null` is `"object"`. -/
def jsTypeof : JSValue → TKind
  | .undefV => .undefinedK
  | .null => .objectK
  | .boolV _ => .booleanK
  | .numV _ => .numberK
  | .strV _ => .stringK
  | .bigV _ => .bigintK
  | .symV _ => .symbolK
  | .funV _ => .functionK
  | .arrV _ => .objectK
  | .objV _ _ _ => .objectK

/-- `v?.constructor?.name`: `none` for `null`/`undefined`, the boxed-primitive
constructor names for primitives, and the tag's name for objects. -/
def ctorNameOf : JSValue → Option String
  | .undefV => none
  | .null => none
  | .boolV _ => some "Boolean"
  | .numV _ => some "Number"
  | .strV _ => some "String"
  | .bigV _ => some "BigInt"
  | .symV _ => some "Symbol"
  | .funV _ => some "Function"
  | .arrV _ => some "Array"
  | .objV _ .plainTag _ => some "Object"
  | .objV _ (.protoTag _ n) _ => some n
  | .objV _ (.exoticTag n) _ => some n

/-- JavaScript truthiness (`!!v`); falsy values are `undefined`, `null`, `false`,
`0`, `0n` and the empty string. -/
def jsTruthy : JSValue → Bool
  | .undefV => false
  | .null => false
  | .boolV b => b
  | .numV n => n != 0
  | .strV s => s != ""
  | .bigV n => n != 0
  | .symV _ => true
  | .funV _ => true
  | .arrV _ => true
  | .objV _ _ _ => true

/-- `Object.getOwnPropertyDescriptor(o, k)` over a property list: first entry with
the given key. -/
def getProp? : List Prp → String → Option (Desc × JSValue)
  | [], _ => none
  | (k', d, v) :: t, k => if k' = k then some (d, v) else getProp? t k

/-- The value stored at `k`, if the key is present. -/
def getVal? (ps : List Prp) (k : String) : Option JSValue :=
  (getProp? ps k).map (·.2)

/-- Reading `o[k]`: the stored value, or `undefined` when the key is absent. -/
def getValD (ps : List Prp) (k : String) : JSValue :=
  ((getProp? ps k).map (·.2)).getD .undefV

/-- Writing `o[k] = v` on a data-writable-or-absent key: update the value in place
(keeping the existing descriptor and position), or append a fresh
enumerable-writable data property. -/
def setProp : List Prp → String → JSValue → List Prp
  | [], k, v => [(k, Desc.data, v)]
  | (k', d, v') :: t, k, v =>
    if k' = k then (k', d, v) :: t else (k', d, v') :: setProp t k v

/-- The keys of a property list, in order. -/
def keysIn (ps : List Prp) : List String := ps.map (·.1)

/-- `ProtoObject.valueToJSON`: booleans, numbers and strings pass through; every
other kind becomes `undefined`. -/
def valueToJSON : JSValue → JSValue
  | .boolV b => .boolV b
  | .numV n => .numV n
  | .strV s => .strV s
  | _ => .undefV

/-- `ProtoObject.valueFromJSON`: the mirror whitelist with the same switch. -/
def valueFromJSON : JSValue → JSValue
  | .boolV b => .boolV b
  | .numV n => .numV n
  | .strV s => .strV s
  | _ => .undefV

/-- The loop body of `ProtoObject.toJSON`: iterate the instance's enumerable
non-accessor own properties (the source pre-filters them with
`getEnumerableProperties`; the guard is inlined here, which visits the same
entries), and write `json[key] = valueToJSON(value)` when that value is truthy. -/
def toJSONLoop : List Prp → List Prp → List Prp
  | json, [] => json
  | json, (k, d, v) :: t =>
    if !d.accessor && d.enumerable then
      let w := valueToJSON v
      if jsTruthy w then toJSONLoop (setProp json k w) t else toJSONLoop json t
    else toJSONLoop json t

/-- `ProtoObject.toJSON` on an own-property list: the fresh `json` bag after the loop. -/
def toJSONProps (ps : List Prp) : List Prp := toJSONLoop [] ps

/-- The loop body of `ProtoObject.fromJSON`: `for (const key in data)` visits the
enumerable keys (accessor properties included — `for...in` does not exclude them),
and `json[key] = valueFromJSON(data[key])` happens only when that value is truthy. -/
def fromJSONLoop : List Prp → List Prp → List Prp
  | json, [] => json
  | json, (k, d, v) :: t =>
    if d.enumerable then
      let w := valueFromJSON v
      if jsTruthy w then fromJSONLoop (setProp json k w) t else fromJSONLoop json t
    else fromJSONLoop json t

/-- The filtered plain bag built inside `ProtoObject.fromJSON` before construction. -/
def fromJSONBag (ps : List Prp) : List Prp := fromJSONLoop [] ps

/-- The write gate of the merge loop: write when the target has no own descriptor at
the key, or when the existing descriptor is a writable enumerable data slot. -/
def writeGate : Option (Desc × JSValue) → Bool
  | none => true
  | some (d, _) => !d.accessor && d.enumerable && d.writable

/-- The own properties of a value (empty for non-objects; array element slots are
outside the model, see the header). -/
def propsOf : JSValue → List Prp
  | .objV _ _ ps => ps
  | _ => []

/-- Replace an object's property list, keeping its identity and constructor tag. -/
def withProps : JSValue → List Prp → JSValue
  | .objV i t _, ps => .objV i t ps
  | v, _ => v

mutual

/-- `ProtoObject.recursiveAssign(obj, data)`, with an explicit fresh-id counter for
the one allocating branch.  Decision order mirrors the source exactly:
1. absent target, or defined source of a different `typeof`, returns the source;
2. a `null` source is terminal;
3. the source dispatch: `undefined` keeps the target; primitives, functions and
   symbols replace; arrays replace wholesale; a `ProtoObject` source whose
   `constructor.name` differs from the target's returns `data.copy()`; a
   non-`ProtoObject` object with a named non-`Object` constructor is atomic;
   otherwise the per-key merge loop runs and the mutated target is returned.

The `data.copy()` branch is `Kind.fromJSON(data.toJSON())`, i.e. constructing a
fresh instance from the filtered primitive bag; since that bag holds only truthy
primitive values under enumerable data descriptors and the new instance starts with
no own properties, the constructor's `deepAssign` writes every bag property
verbatim.  The allocation is therefore written in that closed form here (breaking
the textual recursion through `fromJSON`); the lemma `copy_unfold` below proves the
inlining equal to `copy`, which is defined from `fromJSON` and `toJSON` as in the
source. -/
def recursiveAssign (fresh : Nat) (o d : JSValue) : JSValue × Nat :=
  if isUndefined o || isNull o || (!isUndefined d && jsTypeof o != jsTypeof d) then (d, fresh)
  else if isNull d then (d, fresh)
  else
    match d with
    | .undefV => (o, fresh)
    | .null => (d, fresh)
    | .bigV _ => (d, fresh)
    | .boolV _ => (d, fresh)
    | .funV _ => (d, fresh)
    | .numV _ => (d, fresh)
    | .strV _ => (d, fresh)
    | .symV _ => (d, fresh)
    | .arrV _ => (d, fresh)
    | .objV _ tag ps =>
      match tag with
      | .protoTag cls name =>
        if some name ≠ ctorNameOf o then
          (.objV fresh (.protoTag cls name) (fromJSONBag (toJSONProps ps)), fresh + 1)
        else
          let r := assignLoop fresh (propsOf o) ps
          (withProps o r.1, r.2)
      | .exoticTag name =>
        if name ≠ "Object" then (d, fresh)
        else
          let r := assignLoop fresh (propsOf o) ps
          (withProps o r.1, r.2)
      | .plainTag =>
        let r := assignLoop fresh (propsOf o) ps
        (withProps o r.1, r.2)
termination_by sizeOf d

/-- The per-key merge loop over the source's own properties, in iteration order.
The source pre-filters with `getEnumerableProperties` (enumerable, non-accessor);
the guard is inlined, visiting the same entries.  `v` is the iterated property's
value: the source re-reads `data[prop.key]`, which is the same value because a
JavaScript object holds each key once.  The target is re-read (`getValD`) from its
current, already partially mutated property list. -/
def assignLoop (fresh : Nat) (ops : List Prp) (sps : List Prp) : List Prp × Nat :=
  match sps with
  | [] => (ops, fresh)
  | (k, d, v) :: t =>
    if !d.accessor && d.enumerable then
      if writeGate (getProp? ops k) then
        let r := recursiveAssign fresh (getValD ops k) v
        assignLoop r.2 (setProp ops k r.1) t
      else assignLoop fresh ops t
    else assignLoop fresh ops t
termination_by sizeOf sps

end

/-- `data ?? {}`: nullish coalescing onto a fresh empty bag (a temporary whose
identity never escapes, given id `0`). -/
def nullishOrEmptyBag (d : JSValue) : JSValue :=
  match d with
  | .undefV => .objV 0 .plainTag []
  | .null => .objV 0 .plainTag []
  | v => v

/-- `ProtoObject.deepAssign(obj, data)` = `recursiveAssign(obj, data ?? {})`. -/
def deepAssign (fresh : Nat) (o d : JSValue) : JSValue × Nat :=
  recursiveAssign fresh o (nullishOrEmptyBag d)

/-- `instance.assign(data)` = `deepAssign(this, data)`; the source returns the
result of `deepAssign`, which is the mutated `this`. -/
def assign (fresh : Nat) (self d : JSValue) : JSValue × Nat :=
  deepAssign fresh self d

/-- `new Kind(data)`: allocate a fresh instance (id `fresh`, no own properties) and
run the constructor's `deepAssign(this, data ?? {})`. -/
def constructNew (fresh : Nat) (cls : Nat) (name : String) (d : JSValue) : JSValue × Nat :=
  deepAssign (fresh + 1) (.objV fresh (.protoTag cls name) []) d

/-- `Kind.fromJSON(data)`: filter `data` through `valueFromJSON` plus the truthiness
gate into a fresh bag, then construct a new instance from it. -/
def fromJSON (fresh : Nat) (cls : Nat) (name : String) (bag : List Prp) : JSValue × Nat :=
  constructNew fresh cls name (.objV 0 .plainTag (fromJSONBag bag))

/-- `instance.toJSON()` as the resulting bag's property list. -/
def toJSON (v : JSValue) : List Prp := toJSONProps (propsOf v)

/-- `instance.copy()` = `Kind.fromJSON(this.toJSON())`, for `Kind` the instance's
own constructor.  The engine only ever invokes it on `ProtoObject` instances. -/
def copy (fresh : Nat) (v : JSValue) : JSValue × Nat :=
  match v with
  | .objV _ (.protoTag cls name) ps => fromJSON fresh cls name (toJSONProps ps)
  | _ => (v, fresh)

/-- The identity tag of an object value. -/
def objId : JSValue → Option Nat
  | .objV i _ _ => some i
  | _ => none

mutual

/-- Every object identity occurring inside a value. -/
def valueIds : JSValue → List Nat
  | .objV i _ ps => i :: propIds ps
  | .arrV es => elemIds es
  | _ => []

/-- Object identities inside a property list. -/
def propIds : List Prp → List Nat
  | [] => []
  | (_, _, v) :: t => valueIds v ++ propIds t

/-- Object identities inside an element list. -/
def elemIds : List JSValue → List Nat
  | [] => []
  | v :: t => valueIds v ++ elemIds t

end

/-- A heap fragment addressed by object identity, with pointwise update: the
abstraction in which "mutating the object at address `i`" is meaningful. -/
def setAt (σ : Nat → JSValue) (i : Nat) (w : JSValue) : Nat → JSValue :=
  fun j => if j = i then w else σ j

mutual

/-- A plain key-value bag value: primitives, arrays (never walked by the engine),
and generic `Object`-constructed bags of plain values; no entity instances, no
other named constructors. -/
def plainVal : JSValue → Bool
  | .objV _ .plainTag ps => plainProps ps
  | .objV _ (.protoTag _ _) _ => false
  | .objV _ (.exoticTag _) _ => false
  | _ => true

/-- All entries are enumerable writable data slots holding plain values. -/
def plainProps : List Prp → Bool
  | [] => true
  | (_, d, v) :: t => (d.enumerable && d.writable && !d.accessor) && plainVal v && plainProps t

end

/-- Is the value an array (`Array.isArray`)? -/
def isArr : JSValue → Bool
  | .arrV _ => true
  | _ => false

/-- An arbitrary object as seen by property introspection: its own properties, and
the enumerable properties contributed by its prototype chain (already restricted to
keys not shadowed lower in the chain; `ProtoObject` instances and plain bags have
none, since class methods are non-enumerable). -/
structure JSRecord where
  own : List Prp
  protoEnum : List (String × JSValue)

/-- The keys visited by `for (const key in obj)`: own enumerable keys in insertion
order, then inherited enumerable keys that are not own keys of the object. -/
def forInKeys (r : JSRecord) : List String :=
  (r.own.filter fun p => p.2.1.enumerable).map (·.1)
    ++ (r.protoEnum.map (·.1)).filter fun k => !(keysIn r.own).contains k

/-- `ProtoObject.getProperties(data)`: walk the `for...in` keys, look up the own
descriptor, and push `{key, value: descriptor.value, descriptor}` when the lookup
succeeds (an accessor descriptor has no `value`, read as `undefined`). -/
def getProperties (r : JSRecord) : List (String × JSValue × Desc) :=
  (forInKeys r).filterMap fun k =>
    (getProp? r.own k).map fun dv => (k, (if dv.1.accessor then .undefV else dv.2), dv.1)

/-- `ProtoObject.getEnumerableProperties(data, {onlyWritable})`: `getProperties`
filtered to enumerable non-accessor records, optionally to writable ones. -/
def getEnumerableProperties (r : JSRecord) (onlyWritable : Bool) : List (String × JSValue × Desc) :=
  ((getProperties r).filter fun p => !p.2.2.accessor && p.2.2.enumerable).filter fun p =>
    if onlyWritable then p.2.2.writable else true

/-- `typeof validator !== "function" || !!validator(obj)`: an absent validator
accepts everything. -/
def runValidator (f : Option (JSValue → Bool)) (v : JSValue) : Bool :=
  match f with
  | some g => g v
  | none => true

/-- The `to` direction of `ProtoObject.collectionTransformer`: `undefined` for
non-array input; otherwise filter out falsy or validator-rejected elements, then
map each survivor through its `toJSON()` (elements are entity instances on the
transformer's domain). -/
def collectionTransformerTo (validatorTo : Option (JSValue → Bool)) (objArr : JSValue) :
    Option (List (List Prp)) :=
  match objArr with
  | .arrV es => some ((es.filter fun o => jsTruthy o && runValidator validatorTo o).map toJSON)
  | _ => none

/-- Mapping `Kind.fromJSON` over a list, threading the allocation counter. -/
def fromJSONList (cls : Nat) (name : String) : Nat → List JSValue → List JSValue × Nat
  | fresh, [] => ([], fresh)
  | fresh, j :: t =>
    let r := fromJSON fresh cls name (propsOf j)
    let rs := fromJSONList cls name r.2 t
    (r.1 :: rs.1, rs.2)

/-- The `from` direction of `ProtoObject.collectionTransformer`: `undefined` for
non-array input; otherwise filter out falsy or validator-rejected elements, then
map each survivor through `Kind.fromJSON`. -/
def collectionTransformerFrom (validatorFrom : Option (JSValue → Bool)) (cls : Nat)
    (name : String) (fresh : Nat) (jsonArr : JSValue) : Option (List JSValue × Nat) :=
  match jsonArr with
  | .arrV es =>
    some (fromJSONList cls name fresh (es.filter fun j => jsTruthy j && runValidator validatorFrom j))
  | _ => none

/-- A property list with each key held once, as on a JavaScript object. -/
def nodupKeys (ps : List Prp) : Prop := (keysIn ps).Nodup

instance (ps : List Prp) : Decidable (nodupKeys ps) :=
  inferInstanceAs (Decidable ((keysIn ps).Nodup))

/-- A truthy boolean, number or string: exactly the values the base `toJSON` keeps. -/
def truthyPrimitive : JSValue → Bool
  | .boolV b => b
  | .numV n => n != 0
  | .strV s => s != ""
  | _ => false

/-- The three-field example bag of the round-trip scenario. -/
def roundTripBag : List Prp :=
  [("name", Desc.data, .strV "John Doe"),
   ("email", Desc.data, .strV "john@example.com"),
   ("age", Desc.data, .numV 30)]

/-! ### Association-list toolkit -/

theorem getProp?_setProp_same (ps : List Prp) (k : String) (v : JSValue) :
    getProp? (setProp ps k v) k = some ((((getProp? ps k).map (·.1)).getD Desc.data), v) := by
  induction ps with
  | nil => simp [setProp, getProp?]
  | cons e t ih =>
    obtain ⟨k', d', v'⟩ := e
    by_cases h : k' = k
    · subst h; simp [setProp, getProp?]
    · simp [setProp, getProp?, h, ih]

theorem getProp?_setProp_ne (ps : List Prp) (k : String) (v : JSValue) (k' : String)
    (h : k' ≠ k) : getProp? (setProp ps k v) k' = getProp? ps k' := by
  induction ps with
  | nil => simp [setProp, getProp?, Ne.symm h]
  | cons e t ih =>
    obtain ⟨k₀, d₀, v₀⟩ := e
    by_cases h0 : k₀ = k
    · subst h0; simp [setProp, getProp?, Ne.symm h]
    · by_cases h1 : k₀ = k'
      · subst h1; simp [setProp, getProp?, h0]
      · simp [setProp, getProp?, h0, h1, ih]

theorem keysIn_nil : keysIn [] = [] := rfl

theorem keysIn_cons (k : String) (d : Desc) (v : JSValue) (t : List Prp) :
    keysIn ((k, d, v) :: t) = k :: keysIn t := rfl

theorem keysIn_append (ps qs : List Prp) : keysIn (ps ++ qs) = keysIn ps ++ keysIn qs := by
  simp [keysIn]

theorem setProp_of_notMem (ps : List Prp) (k : String) (v : JSValue)
    (h : ¬ k ∈ keysIn ps) : setProp ps k v = ps ++ [(k, Desc.data, v)] := by
  induction ps with
  | nil => simp [setProp]
  | cons e t ih =>
    obtain ⟨k₀, d₀, v₀⟩ := e
    rw [keysIn_cons] at h
    simp only [List.mem_cons, not_or] at h
    simp [setProp, Ne.symm h.1, ih h.2]

theorem keysIn_setProp (ps : List Prp) (k : String) (v : JSValue) :
    keysIn (setProp ps k v) = if k ∈ keysIn ps then keysIn ps else keysIn ps ++ [k] := by
  induction ps with
  | nil => simp [setProp, keysIn_nil, keysIn_cons]
  | cons e t ih =>
    obtain ⟨k₀, d₀, v₀⟩ := e
    by_cases h0 : k₀ = k
    · subst h0; simp [setProp, keysIn_cons]
    · by_cases ht : k ∈ keysIn t
      · simp [setProp, h0, keysIn_cons, ih, ht, Ne.symm h0]
      · simp [setProp, h0, keysIn_cons, ih, ht, Ne.symm h0]

theorem getProp?_eq_none_iff (ps : List Prp) (k : String) :
    getProp? ps k = none ↔ ¬ k ∈ keysIn ps := by
  induction ps with
  | nil => simp [getProp?, keysIn_nil]
  | cons e t ih =>
    obtain ⟨k₀, d₀, v₀⟩ := e
    by_cases h0 : k₀ = k
    · subst h0; simp [getProp?, keysIn_cons]
    · simp [getProp?, keysIn_cons, h0, ih, Ne.symm h0]

theorem nodupKeys_setProp (ps : List Prp) (k : String) (v : JSValue)
    (h : nodupKeys ps) : nodupKeys (setProp ps k v) := by
  unfold nodupKeys at *
  rw [keysIn_setProp]
  by_cases hm : k ∈ keysIn ps
  · simpa [hm]
  · simp [hm, List.nodup_append, h]

theorem getProp?_of_mem_nodup (ps : List Prp) (hn : nodupKeys ps) (p : Prp)
    (hp : p ∈ ps) : getProp? ps p.1 = some p.2 := by
  induction ps with
  | nil => cases hp
  | cons e t ih =>
    obtain ⟨k₀, d₀, v₀⟩ := e
    unfold nodupKeys at hn
    rw [keysIn_cons] at hn
    rcases List.mem_cons.mp hp with h | h
    · subst h; simp [getProp?]
    · have hk : p.1 ∈ keysIn t := by
        simpa [keysIn] using List.mem_map_of_mem (f := fun x => x.1) h
      have hne : k₀ ≠ p.1 := fun he => ((List.nodup_cons.mp hn).1 (he ▸ hk))
      simp [getProp?, hne, ih (List.nodup_cons.mp hn).2 h]

theorem setProp_desc_forall {P : Desc → Prop} (ps : List Prp) (k : String) (v : JSValue)
    (h : ∀ e ∈ ps, P (e.2.1)) (hd : P Desc.data) : ∀ e ∈ setProp ps k v, P (e.2.1) := by
  induction ps with
  | nil => simpa [setProp]
  | cons e t ih =>
    obtain ⟨k₀, d₀, v₀⟩ := e
    by_cases h0 : k₀ = k
    · subst h0
      intro e he
      rcases List.mem_cons.mp (by simpa [setProp] using he) with h1 | h1
      · subst h1
        simpa using h (k₀, d₀, v₀) (by simp)
      · exact h e (by simp [h1])
    · intro e he
      rcases List.mem_cons.mp (by simpa [setProp, h0] using he) with h1 | h1
      · subst h1
        simpa using h (k₀, d₀, v₀) (by simp)
      · exact ih (fun e he => h e (by simp [he])) e h1

/-! ### Frame lemmas: keys a loop does not visit are untouched -/

theorem assignLoop_frame (sps : List Prp) (ops : List Prp) (fresh : Nat) (k : String)
    (h : ¬ k ∈ keysIn sps) :
    getProp? (assignLoop fresh ops sps).1 k = getProp? ops k := by
  induction sps generalizing ops fresh with
  | nil => rw [assignLoop]
  | cons e t ih =>
    obtain ⟨k₀, d₀, v₀⟩ := e
    rw [keysIn_cons] at h
    simp only [List.mem_cons, not_or] at h
    rw [assignLoop]
    by_cases hg : (!d₀.accessor && d₀.enumerable) = true
    · by_cases hw : writeGate (getProp? ops k₀) = true
      · simp only [hg, hw, if_true]
        rw [ih _ _ h.2, getProp?_setProp_ne _ _ _ _ h.1]
      · simp only [hg, hw, if_true, if_false, Bool.false_eq_true]
        exact ih _ _ h.2
    · simp only [Bool.not_eq_true] at hg
      simp only [hg, Bool.false_eq_true, if_false]
      exact ih _ _ h.2

theorem toJSONLoop_frame (ps json : List Prp) (k : String) (h : ¬ k ∈ keysIn ps) :
    getProp? (toJSONLoop json ps) k = getProp? json k := by
  induction ps generalizing json with
  | nil => rfl
  | cons e t ih =>
    obtain ⟨k₀, d₀, v₀⟩ := e
    rw [keysIn_cons] at h
    simp only [List.mem_cons, not_or] at h
    rw [toJSONLoop]
    by_cases hg : (!d₀.accessor && d₀.enumerable) = true
    · by_cases ht : jsTruthy (valueToJSON v₀) = true
      · simp only [hg, ht, if_true]
        rw [ih _ h.2, getProp?_setProp_ne _ _ _ _ h.1]
      · simp only [hg, ht, if_true, Bool.false_eq_true, if_false]
        exact ih _ h.2
    · simp only [Bool.not_eq_true] at hg
      simp only [hg, Bool.false_eq_true, if_false]
      exact ih _ h.2

theorem fromJSONLoop_frame (ps json : List Prp) (k : String) (h : ¬ k ∈ keysIn ps) :
    getProp? (fromJSONLoop json ps) k = getProp? json k := by
  induction ps generalizing json with
  | nil => rfl
  | cons e t ih =>
    obtain ⟨k₀, d₀, v₀⟩ := e
    rw [keysIn_cons] at h
    simp only [List.mem_cons, not_or] at h
    rw [fromJSONLoop]
    by_cases hg : d₀.enumerable = true
    · by_cases ht : jsTruthy (valueFromJSON v₀) = true
      · simp only [hg, ht, if_true]
        rw [ih _ h.2, getProp?_setProp_ne _ _ _ _ h.1]
      · simp only [hg, ht, if_true, Bool.false_eq_true, if_false]
        exact ih _ h.2
    · simp only [Bool.not_eq_true] at hg
      simp only [hg, Bool.false_eq_true, if_false]
      exact ih _ h.2

/-! ### Plain sources allocate nothing: the fresh-id counter is unchanged -/

mutual

theorem recursiveAssign_plain_snd (fresh : Nat) (o d : JSValue)
    (h : plainVal d = true) : (recursiveAssign fresh o d).2 = fresh := by
  cases d with
  | objV i tag ps =>
    cases tag with
    | protoTag cls name => simp [plainVal] at h
    | exoticTag name => simp [plainVal] at h
    | plainTag =>
      rw [recursiveAssign]
      split
      · rfl
      · split
        · rfl
        · simpa using assignLoop_plain_snd fresh (propsOf o) ps (by simpa [plainVal] using h)
  | undefV =>
    rw [recursiveAssign]
    split
    · rfl
    · split
      · rfl
      · rfl
  | null =>
    rw [recursiveAssign]
    split
    · rfl
    · split
      · rfl
      · rfl
  | boolV b =>
    rw [recursiveAssign]
    split
    · rfl
    · split
      · rfl
      · rfl
  | numV n =>
    rw [recursiveAssign]
    split
    · rfl
    · split
      · rfl
      · rfl
  | strV s =>
    rw [recursiveAssign]
    split
    · rfl
    · split
      · rfl
      · rfl
  | bigV n =>
    rw [recursiveAssign]
    split
    · rfl
    · split
      · rfl
      · rfl
  | symV n =>
    rw [recursiveAssign]
    split
    · rfl
    · split
      · rfl
      · rfl
  | funV n =>
    rw [recursiveAssign]
    split
    · rfl
    · split
      · rfl
      · rfl
  | arrV es =>
    rw [recursiveAssign]
    split
    · rfl
    · split
      · rfl
      · rfl
termination_by sizeOf d

theorem assignLoop_plain_snd (fresh : Nat) (ops sps : List Prp)
    (h : plainProps sps = true) : (assignLoop fresh ops sps).2 = fresh := by
  match sps with
  | [] => rw [assignLoop]
  | (k, d, v) :: t =>
    simp only [plainProps, Bool.and_eq_true] at h
    obtain ⟨⟨⟨⟨he, hwr⟩, hacc⟩, hv⟩, ht⟩ := h
    rw [assignLoop]
    simp only [hacc, he, Bool.and_self, if_true]
    by_cases hw : writeGate (getProp? ops k) = true
    · simp only [hw, if_true]
      rw [assignLoop_plain_snd _ _ t ht]
      exact recursiveAssign_plain_snd fresh (getValD ops k) v hv
    · simp only [hw, Bool.false_eq_true, if_false]
      exact assignLoop_plain_snd _ _ t ht
termination_by sizeOf sps

end

/-! ### The write gate on plain targets -/

theorem plainProps_writeGate (ps : List Prp) (h : plainProps ps = true) (k : String) :
    writeGate (getProp? ps k) = true := by
  induction ps with
  | nil => rfl
  | cons e t ih =>
    obtain ⟨k₀, d₀, v₀⟩ := e
    simp only [plainProps, Bool.and_eq_true] at h
    by_cases h0 : k₀ = k
    · subst h0
      simp [getProp?, writeGate, h.1.1.1.1, h.1.1.1.2, h.1.1.2]
    · simp only [getProp?, h0, if_false]
      exact ih h.2

theorem writeGate_setProp (ops : List Prp) (k : String) (v : JSValue)
    (h : ∀ k', writeGate (getProp? ops k') = true) :
    ∀ k', writeGate (getProp? (setProp ops k v) k') = true := by
  intro k'
  by_cases hk : k' = k
  · subst hk
    rw [getProp?_setProp_same]
    have := h k'
    cases hg : getProp? ops k' with
    | none => simp [writeGate, Desc.data]
    | some dv => rw [hg] at this; simpa [writeGate] using this
  · rw [getProp?_setProp_ne _ _ _ _ hk]
    exact h k'

/-! ### The merge loop writes the recursive reconciliation at every source key -/

theorem assignLoop_getVal_mem (sps : List Prp) (ops : List Prp) (fresh : Nat)
    (hs : plainProps sps = true)
    (ho : ∀ k', writeGate (getProp? ops k') = true)
    (hn : nodupKeys sps) (k : String) (hk : k ∈ keysIn sps) :
    getVal? (assignLoop fresh ops sps).1 k
      = some ((recursiveAssign fresh (getValD ops k) (getValD sps k)).1) := by
  induction sps generalizing ops fresh with
  | nil => rw [keysIn_nil] at hk; cases hk
  | cons e t ih =>
    obtain ⟨k₀, d₀, v₀⟩ := e
    simp only [plainProps, Bool.and_eq_true] at hs
    obtain ⟨⟨⟨⟨he, hwr⟩, hacc⟩, hv⟩, ht⟩ := hs
    unfold nodupKeys at hn
    rw [keysIn_cons] at hn
    have hk₀ : ¬ k₀ ∈ keysIn t := (List.nodup_cons.mp hn).1
    have hn' : nodupKeys t := (List.nodup_cons.mp hn).2
    rw [assignLoop]
    simp only [hacc, he, Bool.and_self, if_true, ho k₀, if_true]
    rw [recursiveAssign_plain_snd fresh (getValD ops k₀) v₀ hv]
    by_cases hkk : k = k₀
    · subst hkk
      unfold getVal?
      rw [assignLoop_frame _ _ _ _ hk₀, getProp?_setProp_same]
      simp [getValD, getProp?]
    · have hkt : k ∈ keysIn t := by
        rw [keysIn_cons] at hk
        rcases List.mem_cons.mp hk with h | h
        · exact absurd h hkk
        · exact h
      rw [ih _ _ ht (writeGate_setProp _ _ _ ho) hn' hkt]
      have h1 : getValD (setProp ops k₀ ((recursiveAssign fresh (getValD ops k₀) v₀).1)) k
          = getValD ops k := by
        unfold getValD
        rw [getProp?_setProp_ne _ _ _ _ hkk]
      have h2 : getValD ((k₀, d₀, v₀) :: t) k = getValD t k := by
        unfold getValD
        simp [getProp?, Ne.symm hkk]
      rw [h1, h2]

/-- Claim C1 (confirmed): reconciliation is additive on plain key-value bags.  For
plain bags `a` (props `as`) and `b` (props `bs`), the merge returns the target bag
(same identity `i`, counter unchanged), every key present in `b` appears in the
result holding the recursive reconciliation of the two values at that key (which is
`b`'s value outright whenever the slot pair is not two mergeable plain structures),
and every key present only in `a` keeps its original descriptor and value. -/
theorem reconcile_additive (i j fresh : Nat) (as bs : List Prp)
    (ha : plainProps as = true) (hb : plainProps bs = true) (hn : nodupKeys bs) :
    recursiveAssign fresh (.objV i .plainTag as) (.objV j .plainTag bs)
        = (.objV i .plainTag (assignLoop fresh as bs).1, fresh)
    ∧ (∀ k, k ∈ keysIn bs →
        getVal? (assignLoop fresh as bs).1 k
          = some ((recursiveAssign fresh (getValD as k) (getValD bs k)).1))
    ∧ (∀ k, ¬ k ∈ keysIn bs →
        getProp? (assignLoop fresh as bs).1 k = getProp? as k) := by
  refine ⟨?_, ?_, ?_⟩
  · rw [recursiveAssign]
    simp [isUndefined, isNull, jsTypeof, propsOf, withProps, assignLoop_plain_snd _ _ _ hb]
  · intro k hk
    exact assignLoop_getVal_mem bs as fresh hb (plainProps_writeGate as ha) hn k hk
  · intro k hk
    exact assignLoop_frame bs as fresh k hk

/-- Claim C6 (confirmed): null terminality.  For every target value `x` of any
runtime kind, `reconcile(x, null)` returns exactly `null` without allocating. -/
theorem reconcile_null_terminal (fresh : Nat) (x : JSValue) :
    recursiveAssign fresh x .null = (.null, fresh) := by
  cases x <;> simp [recursiveAssign, isUndefined, isNull, jsTypeof]

/-- Claim C4 (confirmed): `assign` is in-place and frame-preserving.  Starting from
an entity `{country: "USA", postCode: "10001"}`, `assign({country: "GE"})` returns
the object with the same identity tag `i` (the very same object), `country` updated
to `"GE"`, and `postCode` untouched. -/
theorem assign_partial_update (i cls j fresh : Nat) (name : String) :
    assign fresh
      (.objV i (.protoTag cls name)
        [("country", Desc.data, .strV "USA"), ("postCode", Desc.data, .strV "10001")])
      (.objV j .plainTag [("country", Desc.data, .strV "GE")])
    = (.objV i (.protoTag cls name)
        [("country", Desc.data, .strV "GE"), ("postCode", Desc.data, .strV "10001")], fresh) := by
  simp [assign, deepAssign, nullishOrEmptyBag, recursiveAssign, assignLoop, isUndefined, isNull,
    jsTypeof, propsOf, withProps, writeGate, getProp?, getValD, setProp, Desc.data]

/-- Claim C10 (confirmed): same-kind dispatch compares constructor-name strings,
not class identity.  For two distinct classes (`c₁ ≠ c₂`) sharing the constructor
name `n`, reconciling an instance of one onto an instance of the other takes the
same-kind path: the per-key merge loop runs into the target, which keeps its
identity `i₁` and its own class tag — no independent copy is made. -/
theorem sameName_crossClass_merges (i₁ c₁ i₂ c₂ fresh : Nat) (n : String)
    (ps₁ ps₂ : List Prp) (_hc : c₁ ≠ c₂) :
    recursiveAssign fresh (.objV i₁ (.protoTag c₁ n) ps₁) (.objV i₂ (.protoTag c₂ n) ps₂)
      = (.objV i₁ (.protoTag c₁ n) (assignLoop fresh ps₁ ps₂).1,
          (assignLoop fresh ps₁ ps₂).2) := by
  rw [recursiveAssign]
  simp [isUndefined, isNull, jsTypeof, ctorNameOf, propsOf, withProps]

/-! ### Construction from a fresh instance and a disjoint bag -/

theorem recursiveAssign_absent (fresh : Nat) (v : JSValue) :
    recursiveAssign fresh .undefV v = (v, fresh) := by
  rw [recursiveAssign.eq_def]
  simp [isUndefined]

theorem assignLoop_append (bag : List Prp) (ops : List Prp) (fresh : Nat)
    (hdisj : ∀ k ∈ keysIn bag, ¬ k ∈ keysIn ops) (hn : nodupKeys bag)
    (hall : ∀ e ∈ bag, (!e.2.1.accessor && e.2.1.enumerable) = true) :
    assignLoop fresh ops bag = (ops ++ bag.map (fun e => (e.1, Desc.data, e.2.2)), fresh) := by
  induction bag generalizing ops with
  | nil => rw [assignLoop]; simp
  | cons e t ih =>
    obtain ⟨k, d, v⟩ := e
    unfold nodupKeys at hn
    rw [keysIn_cons] at hn
    have hkt : ¬ k ∈ keysIn t := (List.nodup_cons.mp hn).1
    have hn' : nodupKeys t := (List.nodup_cons.mp hn).2
    have hko : ¬ k ∈ keysIn ops := hdisj k (by rw [keysIn_cons]; simp)
    have hnone : getProp? ops k = none := (getProp?_eq_none_iff _ _).mpr hko
    rw [assignLoop]
    simp only [hall (k, d, v) (by simp), if_true, hnone, writeGate, if_true]
    have hval : getValD ops k = .undefV := by simp [getValD, hnone]
    rw [hval, recursiveAssign_absent, setProp_of_notMem _ _ _ hko]
    rw [ih (ops ++ [(k, Desc.data, v)])
      (by
        intro k' hk'
        rw [keysIn_append]
        simp only [List.mem_append, not_or]
        refine ⟨hdisj k' (by rw [keysIn_cons]; simp [hk']), ?_⟩
        simp only [keysIn_cons, keysIn_nil, List.mem_singleton]
        rintro rfl
        exact hkt hk')
      hn' (fun e he => hall e (by simp [he]))]
    simp

theorem constructNew_plain (fresh cls j : Nat) (name : String) (bag : List Prp)
    (hn : nodupKeys bag)
    (hall : ∀ e ∈ bag, (!e.2.1.accessor && e.2.1.enumerable) = true) :
    constructNew fresh cls name (.objV j .plainTag bag)
      = (.objV fresh (.protoTag cls name) (bag.map fun e => (e.1, Desc.data, e.2.2)),
          fresh + 1) := by
  unfold constructNew deepAssign nullishOrEmptyBag
  rw [recursiveAssign]
  simp only [propsOf]
  rw [assignLoop_append bag [] (fresh + 1) (by simp [keysIn_nil]) hn hall]
  simp [isUndefined, isNull, jsTypeof, withProps]

theorem map_desc_id (bag : List Prp) (h : ∀ e ∈ bag, e.2.1 = Desc.data) :
    (bag.map fun e => (e.1, Desc.data, e.2.2)) = bag := by
  induction bag with
  | nil => rfl
  | cons e t ih =>
    obtain ⟨k, d, v⟩ := e
    have hd : d = Desc.data := h (k, d, v) (by simp)
    simp only [List.map_cons, ih (fun e he => h e (by simp [he]))]
    rw [hd]

theorem fromJSONLoop_desc (ps json : List Prp) (h : ∀ e ∈ json, e.2.1 = Desc.data) :
    ∀ e ∈ fromJSONLoop json ps, e.2.1 = Desc.data := by
  induction ps generalizing json with
  | nil => exact h
  | cons e t ih =>
    obtain ⟨k, d, v⟩ := e
    rw [fromJSONLoop]
    by_cases hg : d.enumerable = true
    · by_cases ht : jsTruthy (valueFromJSON v) = true
      · simp only [hg, ht, if_true]
        exact ih _ (setProp_desc_forall (P := fun x => x = Desc.data) _ _ _ h rfl)
      · simp only [hg, ht, if_true, Bool.false_eq_true, if_false]
        exact ih _ h
    · simp only [Bool.not_eq_true] at hg
      simp only [hg, Bool.false_eq_true, if_false]
      exact ih _ h

theorem nodupKeys_fromJSONLoop (ps json : List Prp) (h : nodupKeys json) :
    nodupKeys (fromJSONLoop json ps) := by
  induction ps generalizing json with
  | nil => exact h
  | cons e t ih =>
    obtain ⟨k, d, v⟩ := e
    rw [fromJSONLoop]
    by_cases hg : d.enumerable = true
    · by_cases ht : jsTruthy (valueFromJSON v) = true
      · simp only [hg, ht, if_true]
        exact ih _ (nodupKeys_setProp _ _ _ h)
      · simp only [hg, ht, if_true, Bool.false_eq_true, if_false]
        exact ih _ h
    · simp only [Bool.not_eq_true] at hg
      simp only [hg, Bool.false_eq_true, if_false]
      exact ih _ h

theorem fromJSONBag_desc (ps : List Prp) : ∀ e ∈ fromJSONBag ps, e.2.1 = Desc.data :=
  fromJSONLoop_desc ps [] (by simp)

theorem nodupKeys_fromJSONBag (ps : List Prp) : nodupKeys (fromJSONBag ps) :=
  nodupKeys_fromJSONLoop ps [] (by simp [nodupKeys, keysIn_nil])

/-- The inlined allocation inside `recursiveAssign` is exactly `copy`. -/
theorem copy_unfold (fresh i cls : Nat) (name : String) (ps : List Prp) :
    copy fresh (.objV i (.protoTag cls name) ps)
      = (.objV fresh (.protoTag cls name) (fromJSONBag (toJSONProps ps)), fresh + 1) := by
  simp only [copy, fromJSON]
  rw [constructNew_plain _ _ _ _ _ (nodupKeys_fromJSONBag _)
    (fun e he => by rw [fromJSONBag_desc _ e he]; rfl)]
  rw [map_desc_id _ (fromJSONBag_desc _)]

/-- Claim C5 (confirmed): cross-kind entity isolation.  When the source is an
entity whose constructor name differs from the target's, the result is exactly
`data.copy()` (the source's normalization round trip on a fresh identity), the
target's own properties are ignored entirely, and — the copy's identity being fresh
— updating the heap at the copy's address leaves the source object untouched. -/
theorem crossKind_replaces_with_copy (i₁ c₁ i₂ c₂ fresh : Nat) (n₁ n₂ : String)
    (ps₁ ps₂ : List Prp) (hname : n₂ ≠ n₁)
    (hf : ¬ fresh ∈ valueIds (.objV i₂ (.protoTag c₂ n₂) ps₂)) :
    recursiveAssign fresh (.objV i₁ (.protoTag c₁ n₁) ps₁) (.objV i₂ (.protoTag c₂ n₂) ps₂)
      = copy fresh (.objV i₂ (.protoTag c₂ n₂) ps₂)
    ∧ objId (copy fresh (.objV i₂ (.protoTag c₂ n₂) ps₂)).1 = some fresh
    ∧ (∀ qs₁, recursiveAssign fresh (.objV i₁ (.protoTag c₁ n₁) qs₁)
          (.objV i₂ (.protoTag c₂ n₂) ps₂)
        = copy fresh (.objV i₂ (.protoTag c₂ n₂) ps₂))
    ∧ (∀ (σ : Nat → JSValue) (w : JSValue), setAt σ fresh w i₂ = σ i₂) := by
  have hmain : ∀ qs₁ : List Prp,
      recursiveAssign fresh (.objV i₁ (.protoTag c₁ n₁) qs₁) (.objV i₂ (.protoTag c₂ n₂) ps₂)
        = copy fresh (.objV i₂ (.protoTag c₂ n₂) ps₂) := by
    intro qs₁
    rw [recursiveAssign, copy_unfold]
    simp [isUndefined, isNull, jsTypeof, ctorNameOf, hname]
  have hne : fresh ≠ i₂ := by
    intro he
    apply hf
    rw [valueIds, he]
    simp
  refine ⟨hmain ps₁, ?_, hmain, ?_⟩
  · rw [copy_unfold]
    rfl
  · intro σ w
    simp [setAt, Ne.symm hne]

/-! ### Normalization lookups -/

theorem valueToJSON_truthy (v : JSValue) :
    jsTruthy (valueToJSON v) = truthyPrimitive v := by
  cases v <;> rfl

theorem valueToJSON_eq_self (v : JSValue) (h : truthyPrimitive v = true) :
    valueToJSON v = v := by
  cases v <;> first | rfl | simp [truthyPrimitive] at h

theorem toJSONLoop_lookup (ps json : List Prp) (k : String) (hjs : ¬ k ∈ keysIn json)
    (hn : nodupKeys ps) :
    getProp? (toJSONLoop json ps) k
      = match getProp? ps k with
        | some (d, v) =>
          if (!d.accessor && d.enumerable) && jsTruthy (valueToJSON v)
          then some (Desc.data, valueToJSON v) else none
        | none => none := by
  induction ps generalizing json with
  | nil =>
    rw [toJSONLoop, getProp?]
    exact (getProp?_eq_none_iff _ _).mpr hjs
  | cons e t ih =>
    obtain ⟨k₀, d₀, v₀⟩ := e
    unfold nodupKeys at hn
    rw [keysIn_cons] at hn
    have hk₀ : ¬ k₀ ∈ keysIn t := (List.nodup_cons.mp hn).1
    have hn' : nodupKeys t := (List.nodup_cons.mp hn).2
    rw [toJSONLoop]
    by_cases hg : (!d₀.accessor && d₀.enumerable) = true
    · by_cases ht : jsTruthy (valueToJSON v₀) = true
      · simp only [hg, ht, if_true]
        by_cases hkk : k = k₀
        · subst hkk
          rw [toJSONLoop_frame _ _ _ hk₀, getProp?_setProp_same,
            (getProp?_eq_none_iff json k).mpr hjs]
          simp [getProp?, hg, ht]
        · rw [ih _ (by
            rw [keysIn_setProp]
            split
            · exact hjs
            · simp only [List.mem_append, List.mem_singleton, not_or]
              exact ⟨hjs, hkk⟩) hn']
          simp [getProp?, Ne.symm hkk]
      · simp only [hg, ht, if_true, Bool.false_eq_true, if_false]
        by_cases hkk : k = k₀
        · subst hkk
          rw [toJSONLoop_frame _ _ _ hk₀, (getProp?_eq_none_iff json k).mpr hjs]
          simp [getProp?, ht]
        · rw [ih _ hjs hn']
          simp [getProp?, Ne.symm hkk]
    · simp only [Bool.not_eq_true] at hg
      simp only [hg, Bool.false_eq_true, if_false]
      by_cases hkk : k = k₀
      · subst hkk
        rw [toJSONLoop_frame _ _ _ hk₀, (getProp?_eq_none_iff json k).mpr hjs]
        simp [getProp?, hg]
      · rw [ih _ hjs hn']
        simp [getProp?, Ne.symm hkk]

theorem fromJSONLoop_lookup (ps json : List Prp) (k : String) (hjs : ¬ k ∈ keysIn json)
    (hn : nodupKeys ps) :
    getProp? (fromJSONLoop json ps) k
      = match getProp? ps k with
        | some (d, v) =>
          if d.enumerable && jsTruthy (valueFromJSON v)
          then some (Desc.data, valueFromJSON v) else none
        | none => none := by
  induction ps generalizing json with
  | nil =>
    rw [fromJSONLoop, getProp?]
    exact (getProp?_eq_none_iff _ _).mpr hjs
  | cons e t ih =>
    obtain ⟨k₀, d₀, v₀⟩ := e
    unfold nodupKeys at hn
    rw [keysIn_cons] at hn
    have hk₀ : ¬ k₀ ∈ keysIn t := (List.nodup_cons.mp hn).1
    have hn' : nodupKeys t := (List.nodup_cons.mp hn).2
    rw [fromJSONLoop]
    by_cases hg : d₀.enumerable = true
    · by_cases ht : jsTruthy (valueFromJSON v₀) = true
      · simp only [hg, ht, if_true]
        by_cases hkk : k = k₀
        · subst hkk
          rw [fromJSONLoop_frame _ _ _ hk₀, getProp?_setProp_same,
            (getProp?_eq_none_iff json k).mpr hjs]
          simp [getProp?, hg, ht]
        · rw [ih _ (by
            rw [keysIn_setProp]
            split
            · exact hjs
            · simp only [List.mem_append, List.mem_singleton, not_or]
              exact ⟨hjs, hkk⟩) hn']
          simp [getProp?, Ne.symm hkk]
      · simp only [hg, ht, if_true, Bool.false_eq_true, if_false]
        by_cases hkk : k = k₀
        · subst hkk
          rw [fromJSONLoop_frame _ _ _ hk₀, (getProp?_eq_none_iff json k).mpr hjs]
          simp [getProp?, ht]
        · rw [ih _ hjs hn']
          simp [getProp?, Ne.symm hkk]
    · simp only [Bool.not_eq_true] at hg
      simp only [hg, Bool.false_eq_true, if_false]
      by_cases hkk : k = k₀
      · subst hkk
        rw [fromJSONLoop_frame _ _ _ hk₀, (getProp?_eq_none_iff json k).mpr hjs]
        simp [getProp?, hg]
      · rw [ih _ hjs hn']
        simp [getProp?, Ne.symm hkk]

/-- Claim C2 (confirmed): the base `toJSON` emits exactly the own, enumerable,
non-accessor properties holding a truthy boolean, number or string, each passed
through unchanged; every other property — other runtime kinds or falsy primitives —
contributes no key at all. -/
theorem toJSON_whitelist (ps : List Prp) (hn : nodupKeys ps) (k : String) :
    getProp? (toJSONProps ps) k
      = match getProp? ps k with
        | some (d, v) =>
          if (!d.accessor && d.enumerable) && truthyPrimitive v
          then some (Desc.data, v) else none
        | none => none := by
  rw [toJSONProps, toJSONLoop_lookup ps [] k (by simp [keysIn_nil]) hn]
  cases hg : getProp? ps k with
  | none => rfl
  | some dv =>
    obtain ⟨d, v⟩ := dv
    by_cases hc : ((!d.accessor && d.enumerable) && truthyPrimitive v) = true
    · have htp : truthyPrimitive v = true := (Bool.and_eq_true _ _).mp hc |>.2
      dsimp only
      rw [valueToJSON_truthy, valueToJSON_eq_self v htp, if_pos hc]
    · dsimp only
      rw [valueToJSON_truthy, if_neg hc, if_neg hc]

/-- Claim C9 (confirmed): the base `fromJSON` drops keys bound to falsy
primitives.  A key mapped to `false`, `0` or `""` passes the `valueFromJSON`
whitelist unchanged, but fails the truthiness gate, so the constructed instance has
no own property at that key. -/
theorem fromJSON_drops_falsy (fresh cls : Nat) (name : String) (bag : List Prp)
    (k : String) (d : Desc) (v : JSValue)
    (hn : nodupKeys bag) (hget : getProp? bag k = some (d, v))
    (hv : v = .boolV false ∨ v = .numV 0 ∨ v = .strV "") :
    valueFromJSON v = v ∧ jsTruthy v = false
    ∧ getProp? (propsOf (fromJSON fresh cls name bag).1) k = none := by
  have hval : valueFromJSON v = v := by rcases hv with h | h | h <;> subst h <;> rfl
  have htr : jsTruthy v = false := by rcases hv with h | h | h <;> subst h <;> simp [jsTruthy]
  have hmem : ¬ k ∈ keysIn (fromJSONBag bag) := by
    rw [← getProp?_eq_none_iff, fromJSONBag,
      fromJSONLoop_lookup bag [] k (by simp [keysIn_nil]) hn, hget]
    dsimp only
    rw [hval, htr]
    simp
  refine ⟨hval, htr, ?_⟩
  have h3 : propsOf (fromJSON fresh cls name bag).1
      = (assignLoop (fresh + 1) [] (fromJSONBag bag)).1 := by
    unfold fromJSON constructNew deepAssign nullishOrEmptyBag
    rw [recursiveAssign]
    simp [isUndefined, isNull, jsTypeof, propsOf, withProps]
  rw [h3, assignLoop_frame _ _ _ _ hmem]
  rfl

/-- Claim C3 (confirmed): the round-trip scenario.  Constructing an entity from
`{name: "John Doe", email: "john@example.com", age: 30}`, serializing with
`toJSON`, rebuilding with the kind's `fromJSON`, and serializing again reproduces
the original bag exactly. -/
theorem roundTrip_scenario (cls fresh fresh' : Nat) (name : String) :
    toJSON (fromJSON fresh' cls name
        (toJSON (constructNew fresh cls name (.objV 0 .plainTag roundTripBag)).1)).1
      = roundTripBag := by
  rw [constructNew_plain fresh cls 0 name roundTripBag (by decide) (by decide),
    map_desc_id roundTripBag (by decide)]
  have h1 : toJSON (.objV fresh (.protoTag cls name) roundTripBag) = roundTripBag := rfl
  rw [h1]
  have h2 : fromJSONBag roundTripBag = roundTripBag := rfl
  rw [fromJSON, h2, constructNew_plain fresh' cls 0 name roundTripBag (by decide) (by decide),
    map_desc_id roundTripBag (by decide)]
  rfl

theorem filterMap_eq_map_of_forall {α β : Type} (l : List α) (f : α → Option β) (g : α → β)
    (h : ∀ a ∈ l, f a = some (g a)) : l.filterMap f = l.map g := by
  induction l with
  | nil => rfl
  | cons a t ih =>
    rw [List.filterMap_cons, h a (by simp), List.map_cons,
      ih (fun a ha => h a (by simp [ha]))]

/-- Claim C7 (counterexample): the claim that `getProperties` returns a record for
every `for...in`-visited key — inherited enumerable keys included — fails.  On an
object with no own properties and one inherited enumerable key `"a"`, `for...in`
visits `"a"`, yet `getProperties` returns no record at all, because the
own-descriptor lookup (`Object.getOwnPropertyDescriptor`) is `undefined` for
inherited keys. -/
theorem getProperties_skips_inherited :
    forInKeys ⟨[], [("a", .numV 1)]⟩ = ["a"]
    ∧ getProperties ⟨[], [("a", .numV 1)]⟩ = [] := ⟨rfl, rfl⟩

/-- Claim C7 (amended): `getProperties` returns a `{key, value, descriptor}`
record exactly for the own enumerable keys, in insertion order (with `undefined` as
the recorded value of accessor properties); inherited enumerable keys are visited
by the `for...in` walk but contribute no record. -/
theorem getProperties_own_enumerable (r : JSRecord) (hn : nodupKeys r.own) :
    getProperties r
      = (r.own.filter fun p => p.2.1.enumerable).map
          (fun p => (p.1, if p.2.1.accessor then JSValue.undefV else p.2.2, p.2.1)) := by
  unfold getProperties forInKeys
  rw [List.filterMap_append]
  have h2 : (((r.protoEnum.map (·.1)).filter fun k => !(keysIn r.own).contains k).filterMap
      fun k => (getProp? r.own k).map
        fun dv => (k, if dv.1.accessor then JSValue.undefV else dv.2, dv.1)) = [] := by
    rw [List.filterMap_eq_nil_iff]
    intro k hk
    have hnot : ¬ k ∈ keysIn r.own := by
      have := List.of_mem_filter hk
      simpa using this
    rw [(getProp?_eq_none_iff _ _).mpr hnot]
    rfl
  rw [h2, List.append_nil, List.filterMap_map]
  apply filterMap_eq_map_of_forall
  intro p hp
  have := getProp?_of_mem_nodup r.own hn p (List.mem_of_mem_filter hp)
  simp only [Function.comp]
  rw [this]
  rfl

/-- Claim C8 (confirmed): collection transformer filtering.  Both directions
return `undefined` for any non-array input, and `to()` on an array of three items
whose validator rejects the second returns exactly the two transformed
survivors, silently dropping the rejected one. -/
theorem collectionTransformer_filters (vt vf : Option (JSValue → Bool)) (cls fresh : Nat)
    (name : String) (f : JSValue → Bool) (a b c : JSValue)
    (ha : jsTruthy a = true) (hfa : f a = true) (hfb : f b = false)
    (hct : jsTruthy c = true) (hfc : f c = true) :
    (∀ v, isArr v = false → collectionTransformerTo vt v = none
        ∧ collectionTransformerFrom vf cls name fresh v = none)
    ∧ collectionTransformerTo (some f) (.arrV [a, b, c]) = some [toJSON a, toJSON c] := by
  constructor
  · intro v hv
    cases v <;> simp_all [collectionTransformerTo, collectionTransformerFrom, isArr]
  · simp [collectionTransformerTo, runValidator, List.filter, ha, hfa, hfb, hct, hfc]

theorem reconcile_additive_witness :
    getVal? (assignLoop 0 [("a", Desc.data, .numV 1), ("c", Desc.data, .strV "x")]
        [("a", Desc.data, .numV 2), ("b", Desc.data, .boolV true)]).1 "a" = some (.numV 2)
    ∧ getVal? (assignLoop 0 [("a", Desc.data, .numV 1), ("c", Desc.data, .strV "x")]
        [("a", Desc.data, .numV 2), ("b", Desc.data, .boolV true)]).1 "b" = some (.boolV true)
    ∧ getProp? (assignLoop 0 [("a", Desc.data, .numV 1), ("c", Desc.data, .strV "x")]
        [("a", Desc.data, .numV 2), ("b", Desc.data, .boolV true)]).1 "c"
        = some (Desc.data, .strV "x") := by
  have h := reconcile_additive 7 8 0
    [("a", Desc.data, .numV 1), ("c", Desc.data, .strV "x")]
    [("a", Desc.data, .numV 2), ("b", Desc.data, .boolV true)]
    (by decide) (by decide) (by decide)
  refine ⟨?_, ?_, ?_⟩
  · rw [h.2.1 "a" (by decide)]
    simp [recursiveAssign, isUndefined, isNull, jsTypeof, getValD, getProp?]
  · rw [h.2.1 "b" (by decide)]
    simp [recursiveAssign, isUndefined, isNull, jsTypeof, getValD, getProp?]
  · rw [h.2.2 "c" (by decide)]
    rfl

theorem toJSON_whitelist_witness :
    getProp? (toJSONProps [("s", Desc.data, .strV "ok"), ("z", Desc.data, .numV 0),
        ("o", Desc.data, .objV 3 .plainTag []), ("h", ⟨false, true, false⟩, .strV "hid"),
        ("g", ⟨true, true, true⟩, .strV "get")]) "s" = some (Desc.data, .strV "ok")
    ∧ getProp? (toJSONProps [("s", Desc.data, .strV "ok"), ("z", Desc.data, .numV 0),
        ("o", Desc.data, .objV 3 .plainTag []), ("h", ⟨false, true, false⟩, .strV "hid"),
        ("g", ⟨true, true, true⟩, .strV "get")]) "z" = none
    ∧ getProp? (toJSONProps [("s", Desc.data, .strV "ok"), ("z", Desc.data, .numV 0),
        ("o", Desc.data, .objV 3 .plainTag []), ("h", ⟨false, true, false⟩, .strV "hid"),
        ("g", ⟨true, true, true⟩, .strV "get")]) "o" = none
    ∧ getProp? (toJSONProps [("s", Desc.data, .strV "ok"), ("z", Desc.data, .numV 0),
        ("o", Desc.data, .objV 3 .plainTag []), ("h", ⟨false, true, false⟩, .strV "hid"),
        ("g", ⟨true, true, true⟩, .strV "get")]) "h" = none
    ∧ getProp? (toJSONProps [("s", Desc.data, .strV "ok"), ("z", Desc.data, .numV 0),
        ("o", Desc.data, .objV 3 .plainTag []), ("h", ⟨false, true, false⟩, .strV "hid"),
        ("g", ⟨true, true, true⟩, .strV "get")]) "g" = none := by
  have h := toJSON_whitelist [("s", Desc.data, .strV "ok"), ("z", Desc.data, .numV 0),
    ("o", Desc.data, .objV 3 .plainTag []), ("h", ⟨false, true, false⟩, .strV "hid"),
    ("g", ⟨true, true, true⟩, .strV "get")] (by decide)
  refine ⟨?_, ?_, ?_, ?_, ?_⟩
  · rw [h "s"]; rfl
  · rw [h "z"]; rfl
  · rw [h "o"]; rfl
  · rw [h "h"]; rfl
  · rw [h "g"]; rfl

theorem crossKind_replaces_with_copy_witness :
    recursiveAssign 5 (.objV 1 (.protoTag 1 "A") [("x", Desc.data, .numV 1)])
        (.objV 2 (.protoTag 2 "B") [("y", Desc.data, .strV "q")])
      = copy 5 (.objV 2 (.protoTag 2 "B") [("y", Desc.data, .strV "q")])
    ∧ objId (copy 5 (.objV 2 (.protoTag 2 "B") [("y", Desc.data, .strV "q")])).1 = some 5
    ∧ setAt (fun _ => .null) 5 (.numV 7) 2 = .null := by
  have h := crossKind_replaces_with_copy 1 1 2 2 5 "A" "B"
    [("x", Desc.data, .numV 1)] [("y", Desc.data, .strV "q")]
    (by decide) (by decide)
  refine ⟨h.1, h.2.1, ?_⟩
  rw [h.2.2.2 (fun _ => .null) (.numV 7)]

theorem getProperties_own_enumerable_witness :
    getProperties ⟨[("a", Desc.data, .numV 1), ("b", ⟨false, true, false⟩, .numV 2),
        ("g", ⟨true, true, true⟩, .numV 3)], [("z", .numV 9)]⟩
      = [("a", .numV 1, Desc.data), ("g", .undefV, ⟨true, true, true⟩)] := by
  rw [getProperties_own_enumerable ⟨[("a", Desc.data, .numV 1),
    ("b", ⟨false, true, false⟩, .numV 2), ("g", ⟨true, true, true⟩, .numV 3)],
    [("z", .numV 9)]⟩ (by decide)]
  rfl

theorem collectionTransformer_filters_witness :
    collectionTransformerTo (some fun v => match objId v with | some 2 => false | _ => true)
        (.numV 5) = none
    ∧ collectionTransformerFrom none 0 "E" 0 (.numV 5) = none
    ∧ collectionTransformerTo (some fun v => match objId v with | some 2 => false | _ => true)
        (.arrV [.objV 1 (.protoTag 0 "E") [("p", Desc.data, .numV 1)],
          .objV 2 (.protoTag 0 "E") [("r", Desc.data, .numV 9)],
          .objV 3 (.protoTag 0 "E") [("q", Desc.data, .strV "w")]])
      = some [[("p", Desc.data, .numV 1)], [("q", Desc.data, .strV "w")]] := by
  have h := collectionTransformer_filters
    (some fun v => match objId v with | some 2 => false | _ => true) none 0 0 "E"
    (fun v => match objId v with | some 2 => false | _ => true)
    (.objV 1 (.protoTag 0 "E") [("p", Desc.data, .numV 1)])
    (.objV 2 (.protoTag 0 "E") [("r", Desc.data, .numV 9)])
    (.objV 3 (.protoTag 0 "E") [("q", Desc.data, .strV "w")])
    rfl rfl rfl rfl rfl
  refine ⟨(h.1 (.numV 5) rfl).1, (h.1 (.numV 5) rfl).2, ?_⟩
  rw [h.2]
  rfl

theorem fromJSON_drops_falsy_witness :
    valueFromJSON (.boolV false) = .boolV false
    ∧ jsTruthy (.boolV false) = false
    ∧ getProp? (propsOf (fromJSON 0 0 "E"
        [("flag", Desc.data, .boolV false), ("ok", Desc.data, .numV 1)]).1) "flag" = none :=
  fromJSON_drops_falsy 0 0 "E"
    [("flag", Desc.data, .boolV false), ("ok", Desc.data, .numV 1)]
    "flag" Desc.data (.boolV false) (by decide) rfl (Or.inl rfl)

theorem sameName_crossClass_merges_witness :
    recursiveAssign 0 (.objV 1 (.protoTag 10 "Same") [("x", Desc.data, .numV 1)])
        (.objV 2 (.protoTag 20 "Same") [("x", Desc.data, .numV 2)])
      = (.objV 1 (.protoTag 10 "Same") [("x", Desc.data, .numV 2)], 0) := by
  rw [sameName_crossClass_merges 1 10 2 20 0 "Same"
    [("x", Desc.data, .numV 1)] [("x", Desc.data, .numV 2)] (by decide)]
  simp [assignLoop, recursiveAssign, isUndefined, isNull, jsTypeof, writeGate, getProp?,
    getValD, setProp, Desc.data]
